import Mathlib

/-!
Verification of the Quran-Tracker plan-generation core.

The development shallowly embeds the repository's core logic:
* `src/lib/goalCalculator.ts` (total-units resolution, reading-date
  enumeration, unit-to-location distribution, goal validation),
* `src/services/quranData.ts` (ayah-reference parsing; the rest of that
  module wraps the external `quran-meta` package and is modelled as an
  abstract `QuranIndex`),
* `src/store/useGoalStore.ts` (streak computation and completion toggles).

Modelling conventions:
* JS `number` values are modelled as `Int` (all quantities involved are
  integral in every reachable state the claims speak about).
* JS `Date` values are modelled by `JSDate`: the `getTime` value in
  milliseconds together with the civil year/month/day fields.  The plan
  generator normalises every date to local midnight (`setHours(0,0,0,0)`)
  and then only ever steps whole days, so inside the generator dates are
  day numbers (days since the epoch); `mkDayDate` converts a day number
  to the corresponding `JSDate`.  An `Invalid Date` (`NaN` time) is
  modelled by `Option`: `none` stands for an invalid date.
* The external Location Index (`quran-meta`) is an abstract structure of
  lookup functions with `Option` results (`null` ↦ `none`).
-/

namespace QT

/-- Milliseconds per day, the constant used by the source
(`1000 * 60 * 60 * 24`). -/
def msPerDay : Int := 86400000

/-- Floor division of integers, written out via `Int.fdiv`;
`Math.floor(a / b)` of the JS source for integer `a` and positive `b`. -/
def jsFloorDiv (a b : Int) : Int := Int.fdiv a b

/-- Ceiling division; `Math.ceil(a / b)` of the JS source for integer `a`
and positive `b` (every use in the claims is guarded by `0 < b`). -/
def ceilDivI (a b : Int) : Int := Int.fdiv (a + b - 1) b

/-- `Date.prototype.getDay` on a date that sits at midnight of day number
`d` (days since the Unix epoch): day 0 was a Thursday, hence the offset 4.
Result is in `0..6` with `0` = Sunday, as in JS. -/
def jsDayOfWeek (d : Int) : Int := (d + 4) % 7

/-- Civil (proleptic Gregorian) date of a day number, days since
1970-01-01; standard era-decomposition algorithm, month is `1..12`. -/
def civilFromDays (z0 : Int) : Int × Int × Int :=
  let z := z0 + 719468
  let era := Int.fdiv z 146097
  let doe := z - era * 146097
  let yoe := Int.fdiv (doe - Int.fdiv doe 1460 + Int.fdiv doe 36524 - Int.fdiv doe 146096) 365
  let y := yoe + era * 400
  let doy := doe - (365 * yoe + Int.fdiv yoe 4 - Int.fdiv yoe 100)
  let mp := Int.fdiv (5 * doy + 2) 153
  let d := doy - Int.fdiv (153 * mp + 2) 5 + 1
  let m := mp + (if mp < 10 then 3 else -9)
  (if m ≤ 2 then y + 1 else y, m, d)

/-- A JS `Date` as the store observes it: `time` is `getTime()` in
milliseconds, `year`/`month`/`day` are `getFullYear()`/`getMonth()`
(0-based)/`getDate()`. -/
structure JSDate where
  time : Int
  year : Int
  month : Int
  day : Int
deriving DecidableEq, Repr

/-- The `JSDate` sitting at midnight (UTC model) of day number `d`. -/
def mkDayDate (d : Int) : JSDate :=
  let c := civilFromDays d
  { time := d * msPerDay, year := c.1, month := c.2.1 - 1, day := c.2.2 }

/-! ### Data model (`src/types/index.ts`) -/

/-- `UserGoal.target`; the `other` constructor models a runtime value
outside the declared TS union, which the source handles in its `default`
switch branches. -/
inductive Target
  | wholeQuran
  | specificJuz
  | specificSurah
  | other
deriving DecidableEq, Repr

/-- `UserGoal.unit`. -/
inductive GoalUnit
  | pages
  | juz
  | surah
  | ayahs
deriving DecidableEq, Repr

/-- `UserGoal` (`id` is omitted: the core logic never reads it).
`startDate` is the day number of the start date (`none` = Invalid Date);
`deadline` is `none` when absent, `some none` for a present-but-Invalid
Date, `some (some d)` for the day number `d` of a valid deadline. -/
structure UserGoal where
  target : Target
  targetValue : Option Int
  unit : GoalUnit
  dailyAmount : Int
  deadline : Option (Option Int)
  startDate : Option Int
  daysOfWeek : List Int
deriving DecidableEq, Repr

/-- `DailyAssignment`. -/
structure Assignment where
  date : JSDate
  fromAyah : String
  toAyah : String
  fromPage : Int
  toPage : Int
  completed : Bool
  isCatchUpDay : Bool
deriving DecidableEq, Repr

/-- `Juz` of `src/types` (display-only fields omitted).  `startAyah` and
`endAyah` are ayah-reference strings, as the declared interface states and
as `goalCalculator.ts` consumes them. -/
structure Juz where
  startPage : Int
  endPage : Int
  startAyah : String
  endAyah : String
deriving DecidableEq, Repr

/-- `Surah` of `src/types` (display-only fields omitted). -/
structure Surah where
  ayahCount : Int
  startPage : Int
  endPage : Int
deriving DecidableEq, Repr

/-- The ayah range of one page, result of `getAyahRangeForPage`. -/
structure AyahRange where
  start : String
  «end» : String
deriving DecidableEq, Repr

/-- The surface of `src/services/quranData.ts` that `goalCalculator.ts`
consumes.  The implementations wrap the external `quran-meta` dataset
(not part of the repository), so the index is kept abstract; `none`
models a `null` result. -/
structure QuranIndex where
  getJuzById : Int → Option Juz
  getSurahById : Int → Option Surah
  getAyahRangeForPage : Int → Option AyahRange
  getPageForAyah : Int → Int → Option Int

/-! ### `parseAyahReference` (`src/services/quranData.ts`)

JS `parseInt(s, 10)` skips leading whitespace, consumes an optional sign
and then the longest prefix of decimal digits; it returns `NaN` (here
`none`) when no digit was consumed. -/

/-- Numeric value of the longest digit prefix of a character list,
`none` when the list does not start with a digit. -/
def digitPrefixVal (cs : List Char) : Option Nat :=
  let digits := cs.takeWhile (·.isDigit)
  if digits.isEmpty then none
  else some (digits.foldl (fun acc c => 10 * acc + (c.toNat - '0'.toNat)) 0)

/-- ECMAScript `parseInt(s, 10)`; `none` models `NaN`. -/
def jsParseInt (s : String) : Option Int :=
  let cs := s.data.dropWhile (·.isWhitespace)
  match cs with
  | '-' :: rest => (digitPrefixVal rest).map (fun n => -(n : Int))
  | '+' :: rest => (digitPrefixVal rest).map (fun n => (n : Int))
  | _ => (digitPrefixVal cs).map (fun n => (n : Int))

/-- `String.prototype.split(':')` on the character list: every occurrence
of `':'` separates fields, so `""` yields `[""]`, `":"` yields
`["", ""]`, and trailing separators produce trailing empty fields,
exactly as in ECMAScript. -/
def splitColonChars : List Char → List String
  | [] => [""]
  | c :: rest =>
    if c = ':' then "" :: splitColonChars rest
    else
      match splitColonChars rest with
      | s :: tail => (⟨c :: s.data⟩ : String) :: tail
      | [] => [(⟨[c]⟩ : String)]

/-- `String.prototype.split(':')`. -/
def jsSplitColon (s : String) : List String := splitColonChars s.data

/-- `parseAyahReference` from `src/services/quranData.ts`: split on `:`,
require exactly two fields, `parseInt` both, `null` on `NaN`. -/
def parseAyahReference (ayahRef : String) : Option (Int × Int) :=
  match jsSplitColon ayahRef with
  | [p0, p1] =>
    match jsParseInt p0, jsParseInt p1 with
    | some surahId, some ayahNumber => some (surahId, ayahNumber)
    | _, _ => none
  | _ => none

/-! ### JS number-to-string (template literals of the source) -/

/-- Decimal digit characters of `n`, most significant first;
structural fuel recursion (any `fuel ≥ n` is exact). -/
def natDigits : Nat → Nat → List Char
  | 0, _ => []
  | fuel + 1, n =>
    if n < 10 then [Char.ofNat (n + '0'.toNat)]
    else natDigits fuel (n / 10) ++ [Char.ofNat (n % 10 + '0'.toNat)]

/-- JS `ToString` on an integral number, as used by template literals
such as `` `${surahId}:${ayahNumber}` ``. -/
def jsNumToString (n : Int) : String :=
  if n < 0 then "-" ++ ⟨natDigits ((-n).toNat + 1) (-n).toNat⟩
  else ⟨natDigits (n.toNat + 1) n.toNat⟩

/-- The template literal `` `${s}:${a}` `` building an ayah reference. -/
def formatAyah (s a : Int) : String := jsNumToString s ++ ":" ++ jsNumToString a

/-! ### JS falsiness helpers

`x || d` in the source falls back to `d` when `x` is `undefined`/`null`,
but also when `x` is the falsy number `0` or the falsy empty string. -/

/-- `x || d` for an optional number. -/
def intOrDefault (x : Option Int) (d : Int) : Int :=
  match x with
  | none => d
  | some v => if v = 0 then d else v

/-- `x || d` for an optional string. -/
def strOrDefault (x : Option String) (d : String) : String :=
  match x with
  | none => d
  | some s => if s = "" then d else s

/-! ### `src/lib/goalCalculator.ts` -/

/-- `calculateTotalUnits`.  In each specific-target branch the source
first runs `if (!goal.targetValue) return 0`, which also fires on the
falsy number `0`. -/
def calculateTotalUnits (idx : QuranIndex) (goal : UserGoal) : Int :=
  match goal.target with
  | .wholeQuran =>
    if goal.unit = .pages then 604 else if goal.unit = .juz then 30 else 114
  | .specificJuz =>
    match goal.targetValue with
    | none => 0
    | some tv =>
      if tv = 0 then 0
      else
        match idx.getJuzById tv with
        | none => 0
        | some j => if goal.unit = .pages then j.endPage - j.startPage + 1 else 1
  | .specificSurah =>
    match goal.targetValue with
    | none => 0
    | some tv =>
      if tv = 0 then 0
      else
        match idx.getSurahById tv with
        | none => 0
        | some s =>
          if goal.unit = .pages then s.endPage - s.startPage + 1
          else if goal.unit = .ayahs then s.ayahCount
          else 1
  | .other => 0

/-- `getStartingPage`. -/
def getStartingPage (idx : QuranIndex) (goal : UserGoal) : Int :=
  match goal.target with
  | .wholeQuran => 1
  | .specificJuz =>
    match goal.targetValue with
    | none => 1
    | some tv =>
      if tv = 0 then 1
      else intOrDefault ((idx.getJuzById tv).map (·.startPage)) 1
  | .specificSurah =>
    match goal.targetValue with
    | none => 1
    | some tv =>
      if tv = 0 then 1
      else intOrDefault ((idx.getSurahById tv).map (·.startPage)) 1
  | .other => 1

/-- `getEndingPage`. -/
def getEndingPage (idx : QuranIndex) (goal : UserGoal) : Int :=
  match goal.target with
  | .wholeQuran => 604
  | .specificJuz =>
    match goal.targetValue with
    | none => 1
    | some tv =>
      if tv = 0 then 1
      else intOrDefault ((idx.getJuzById tv).map (·.endPage)) 1
  | .specificSurah =>
    match goal.targetValue with
    | none => 1
    | some tv =>
      if tv = 0 then 1
      else intOrDefault ((idx.getSurahById tv).map (·.endPage)) 1
  | .other => 1

/-- `getStartingAyah`. -/
def getStartingAyah (idx : QuranIndex) (goal : UserGoal) : String :=
  match goal.target with
  | .wholeQuran => "1:1"
  | .specificJuz =>
    match goal.targetValue with
    | none => "1:1"
    | some tv =>
      if tv = 0 then "1:1"
      else strOrDefault ((idx.getJuzById tv).map (·.startAyah)) "1:1"
  | .specificSurah =>
    match goal.targetValue with
    | none => "1:1"
    | some tv => if tv = 0 then "1:1" else formatAyah tv 1
  | .other => "1:1"

/-- `getEndingAyah`. -/
def getEndingAyah (idx : QuranIndex) (goal : UserGoal) : String :=
  match goal.target with
  | .wholeQuran => "114:6"
  | .specificJuz =>
    match goal.targetValue with
    | none => "1:1"
    | some tv =>
      if tv = 0 then "1:1"
      else strOrDefault ((idx.getJuzById tv).map (·.endAyah)) "1:1"
  | .specificSurah =>
    match goal.targetValue with
    | none => "1:1"
    | some tv =>
      if tv = 0 then "1:1"
      else
        match idx.getSurahById tv with
        | none => "1:1"
        | some s => formatAyah tv s.ayahCount
  | .other => "1:1"

/-- The deadline test of `generateReadingDates` (`currentDate > deadline`
after `setHours(23,59,59,999)`): at day granularity the current day must
exceed the deadline's day.  An absent deadline skips the test, and an
Invalid-Date deadline makes it a `NaN` comparison, which is `false`. -/
def pastDeadline (deadline : Option (Option Int)) (currentDay : Int) : Bool :=
  match deadline with
  | some (some dl) => currentDay > dl
  | _ => false

/-- The `while` loop of `generateReadingDates`.  The fuel argument counts
the iterations still allowed by the source's `iterations < maxIterations`
guard, so running the loop with fuel `maxIterations` is exactly the JS
loop.  The deadline test sits inside the qualifying-weekday branch and
`return`ing `dates` models its `break`. -/
def generateReadingDatesLoop (daysOfWeek : List Int) (deadline : Option (Option Int))
    (totalDaysNeeded : Int) :
    Nat → Int → Int → List Int → List Int
  | 0, _, _, dates => dates
  | fuel + 1, currentDay, daysAdded, dates =>
    if daysAdded < totalDaysNeeded then
      if daysOfWeek.contains (jsDayOfWeek currentDay) then
        if pastDeadline deadline currentDay then dates
        else
          generateReadingDatesLoop daysOfWeek deadline totalDaysNeeded
            fuel (currentDay + 1) (daysAdded + 1) (dates ++ [currentDay])
      else
        generateReadingDatesLoop daysOfWeek deadline totalDaysNeeded
          fuel (currentDay + 1) daysAdded dates
    else dates

/-- `generateReadingDates`, producing day numbers.  An Invalid start date
propagates `NaN` through `getDay()`, so no day ever qualifies and the JS
loop returns `[]`; that case is returned directly. -/
def generateReadingDates (goal : UserGoal) (totalUnits : Int) : List Int :=
  match goal.startDate with
  | none => []
  | some startDay =>
    let totalDaysNeeded := ceilDivI totalUnits goal.dailyAmount
    let maxIterations := totalDaysNeeded * 10
    generateReadingDatesLoop goal.daysOfWeek goal.deadline totalDaysNeeded
      maxIterations.toNat startDay 0 []

/-- `getAyahsForPageRange`. -/
def getAyahsForPageRange (idx : QuranIndex) (startPage endPage : Int) : String × String :=
  let startRange := idx.getAyahRangeForPage startPage
  let endRange := idx.getAyahRangeForPage endPage
  (strOrDefault (startRange.map (·.start)) "1:1",
   strOrDefault (endRange.map (·.«end»)) "1:1")

/-- The `while` loop of `incrementAyah` on the parsed `(surahId,
ayahNumber)` pair.  Every recursive call increments `surahId`, and the
guard requires `surahId ≤ 114`, so fuel `(115 - surahId).toNat + 1` is
never exhausted; the fuel-0 branch is unreachable. -/
def incrementAyahLoop (idx : QuranIndex) :
    Nat → Int → Int → Int → Int × Int
  | 0, surahId, ayahNumber, _ => (surahId, ayahNumber)
  | fuel + 1, surahId, ayahNumber, remaining =>
    if remaining > 0 ∧ surahId ≤ 114 then
      match idx.getSurahById surahId with
      | none => (surahId, ayahNumber)
      | some surah =>
        let ayahsLeftInSurah := surah.ayahCount - ayahNumber
        if remaining ≤ ayahsLeftInSurah then
          (surahId, ayahNumber + remaining)
        else
          incrementAyahLoop idx fuel (surahId + 1) 1 (remaining - (ayahsLeftInSurah + 1))
    else (surahId, ayahNumber)

/-- `incrementAyah`. -/
def incrementAyah (idx : QuranIndex) (currentAyah : String) (count : Int) : String :=
  match parseAyahReference currentAyah with
  | none => currentAyah
  | some (surahId, ayahNumber) =>
    let r := incrementAyahLoop idx ((115 - surahId).toNat + 1) surahId ayahNumber count
    formatAyah r.1 r.2

/-- The `for (const date of readingDates)` loop of `generatePlan`,
carrying the page cursor, the ayah cursor and the accumulated
assignments; returning the accumulator models `break`. -/
def generatePlanLoop (idx : QuranIndex) (goal : UserGoal) (endingPage : Int)
    (endingAyah : String) :
    List Int → Int → String → List Assignment → List Assignment
  | [], _, _, assignments => assignments
  | date :: rest, currentPage, currentAyah, assignments =>
    if goal.unit = .pages then
      let fromPage := currentPage
      let toPage := min (currentPage + goal.dailyAmount - 1) endingPage
      let ayahRange := getAyahsForPageRange idx fromPage toPage
      let assignments := assignments ++
        [{ date := mkDayDate date, fromAyah := ayahRange.1, toAyah := ayahRange.2,
           fromPage := fromPage, toPage := toPage, completed := false,
           isCatchUpDay := false }]
      let currentPage := toPage + 1
      if currentPage > endingPage then assignments
      else generatePlanLoop idx goal endingPage endingAyah rest currentPage currentAyah assignments
    else if goal.unit = .ayahs then
      let fromAyah := currentAyah
      let toAyah := incrementAyah idx currentAyah (goal.dailyAmount - 1)
      let fromParsed := parseAyahReference fromAyah
      let toParsed := parseAyahReference toAyah
      let fromPage := match fromParsed with
        | some p => intOrDefault (idx.getPageForAyah p.1 p.2) 1
        | none => 1
      let toPage := match toParsed with
        | some p => intOrDefault (idx.getPageForAyah p.1 p.2) 1
        | none => 1
      let assignments := assignments ++
        [{ date := mkDayDate date, fromAyah := fromAyah, toAyah := toAyah,
           fromPage := fromPage, toPage := toPage, completed := false,
           isCatchUpDay := false }]
      let currentAyah := incrementAyah idx toAyah 1
      let endParsed := parseAyahReference endingAyah
      let currentParsed := parseAyahReference currentAyah
      match endParsed, currentParsed with
      | some e, some c =>
        if c.1 > e.1 ∨ (c.1 = e.1 ∧ c.2 > e.2) then assignments
        else generatePlanLoop idx goal endingPage endingAyah rest currentPage currentAyah assignments
      | _, _ =>
        generatePlanLoop idx goal endingPage endingAyah rest currentPage currentAyah assignments
    else
      -- juz / surah units: the source distributes pages exactly as in the
      -- pages branch
      let fromPage := currentPage
      let toPage := min (currentPage + goal.dailyAmount - 1) endingPage
      let ayahRange := getAyahsForPageRange idx fromPage toPage
      let assignments := assignments ++
        [{ date := mkDayDate date, fromAyah := ayahRange.1, toAyah := ayahRange.2,
           fromPage := fromPage, toPage := toPage, completed := false,
           isCatchUpDay := false }]
      let currentPage := toPage + 1
      if currentPage > endingPage then assignments
      else generatePlanLoop idx goal endingPage endingAyah rest currentPage currentAyah assignments

/-- `generatePlan`. -/
def generatePlan (idx : QuranIndex) (goal : UserGoal) : List Assignment :=
  let totalUnits := calculateTotalUnits idx goal
  if totalUnits = 0 then []
  else
    let readingDates := generateReadingDates goal totalUnits
    if readingDates.length = 0 then []
    else
      generatePlanLoop idx goal (getEndingPage idx goal) (getEndingAyah idx goal)
        readingDates (getStartingPage idx goal) (getStartingAyah idx goal) []

/-- The deadline block of `validateGoal` (`if (goal.deadline) { ... }`):
a present-but-Invalid deadline pushes "Invalid deadline"; a valid one is
compared against the start date (the JS comparison against an Invalid
start date is a `NaN` comparison, hence `false`). -/
def deadlineErrors (deadline : Option (Option Int)) (startDate : Option Int)
    (errors : List String) : List String :=
  match deadline with
  | none => errors
  | some none => errors ++ ["Invalid deadline"]
  | some (some dl) =>
    match startDate with
    | some s => if dl < s then errors ++ ["Deadline must be after start date"] else errors
    | none => errors

/-- The target block of `validateGoal`: a missing (or falsy-zero) index
is "required"; a present one is range-checked per target kind. -/
def targetErrors (target : Target) (targetValue : Option Int)
    (errors : List String) : List String :=
  if target = .specificJuz ∨ target = .specificSurah then
    match targetValue with
    | none => errors ++ ["Target value is required for specific juz or surah goals"]
    | some tv =>
      if tv = 0 then errors ++ ["Target value is required for specific juz or surah goals"]
      else
        let errors := if target = .specificJuz ∧ (tv < 1 ∨ tv > 30)
          then errors ++ ["Juz number must be between 1 and 30"] else errors
        if target = .specificSurah ∧ (tv < 1 ∨ tv > 114)
          then errors ++ ["Surah number must be between 1 and 114"] else errors
  else errors

/-- `validateGoal`.  Dates are compared at day granularity (the spec's
"calendar date"). -/
def validateGoal (goal : UserGoal) : Bool × List String :=
  let errors : List String := []
  let errors := if goal.daysOfWeek.length = 0
    then errors ++ ["At least one day of the week must be selected"] else errors
  let errors := if goal.startDate.isNone
    then errors ++ ["Invalid start date"] else errors
  let errors := deadlineErrors goal.deadline goal.startDate errors
  let errors := if goal.dailyAmount ≤ 0
    then errors ++ ["Daily amount must be greater than 0"] else errors
  let errors := targetErrors goal.target goal.targetValue errors
  (errors.length = 0, errors)

/-! ### `src/store/useGoalStore.ts` -/

/-- `isSameDay`. -/
def isSameDay (date1 date2 : JSDate) : Bool :=
  date1.year == date2.year && date1.month == date2.month && date1.day == date2.day

/-- Result of `calculateStreaks`. -/
structure Streaks where
  current : Int
  best : Int
deriving DecidableEq, Repr

/-- The `[...plan].sort((a, b) => a.date.getTime() - b.date.getTime())`
call; ECMAScript sort is stable, as is `List.mergeSort`. -/
def sortByDate (plan : List Assignment) : List Assignment :=
  plan.mergeSort (fun a b => a.date.time ≤ b.date.time)

/-- One iteration of the `calculateStreaks` loop; the state is
`(currentStreak, bestStreak, tempStreak)` and `now` is the value of
`new Date()` at the call. -/
def streakStep (now : Int) (s : Int × Int × Int) (a : Assignment) : Int × Int × Int :=
  if a.completed then
    let tempStreak := s.2.2 + 1
    let bestStreak := max s.2.1 tempStreak
    let daysDiff := jsFloorDiv (now - a.date.time) msPerDay
    let currentStreak := if daysDiff ≤ 1 then tempStreak else s.1
    (currentStreak, bestStreak, tempStreak)
  else (s.1, s.2.1, 0)

/-- `calculateStreaks`. -/
def calculateStreaks (now : Int) (plan : List Assignment) : Streaks :=
  let sortedAssignments := sortByDate plan
  let r := sortedAssignments.foldl (streakStep now) (0, 0, 0)
  { current := r.1, best := r.2.1 }

/-- The goal store's state, restricted to the fields the claims touch
(`currentGoal` and `lastUpdated` are never read by the claimed
operations). -/
structure GoalStoreState where
  plan : List Assignment
  currentStreak : Int
  bestStreak : Int
  totalDaysCompleted : Nat
deriving Repr

/-- `markDayAsComplete`. -/
def markDayAsComplete (now : Int) (s : GoalStoreState) (date : JSDate) : GoalStoreState :=
  let updatedPlan := s.plan.map fun assignment =>
    if isSameDay assignment.date date then { assignment with completed := true }
    else assignment
  let streaks := calculateStreaks now updatedPlan
  { plan := updatedPlan,
    currentStreak := streaks.current,
    bestStreak := streaks.best,
    totalDaysCompleted := (updatedPlan.filter (·.completed)).length }

/-- `markDayAsIncomplete`. -/
def markDayAsIncomplete (now : Int) (s : GoalStoreState) (date : JSDate) : GoalStoreState :=
  let updatedPlan := s.plan.map fun assignment =>
    if isSameDay assignment.date date then { assignment with completed := false }
    else assignment
  let streaks := calculateStreaks now updatedPlan
  { plan := updatedPlan,
    currentStreak := streaks.current,
    bestStreak := streaks.best,
    totalDaysCompleted := (updatedPlan.filter (·.completed)).length }

/-! ## Helper facts about the streak fold -/

/-- Invariant of one `calculateStreaks` iteration: all three counters stay
non-negative and `currentStreak` and `tempStreak` stay below
`bestStreak`. -/
lemma streakFold_bounds (now : Int) (l : List Assignment) :
    ∀ s : Int × Int × Int, 0 ≤ s.1 → 0 ≤ s.2.2 → s.1 ≤ s.2.1 → s.2.2 ≤ s.2.1 →
      0 ≤ (l.foldl (streakStep now) s).1 ∧
      0 ≤ (l.foldl (streakStep now) s).2.2 ∧
      (l.foldl (streakStep now) s).1 ≤ (l.foldl (streakStep now) s).2.1 ∧
      (l.foldl (streakStep now) s).2.2 ≤ (l.foldl (streakStep now) s).2.1 := by
  induction l with
  | nil => exact fun s h1 h2 h3 h4 => ⟨h1, h2, h3, h4⟩
  | cons a l ih =>
    intro s h1 h2 h3 h4
    simp only [List.foldl_cons]
    apply ih
    all_goals
      unfold streakStep
      split
    all_goals simp_all <;> omega

/-- A concrete plan: one completed assignment dated one day after the
evaluation time `0`. -/
def futureAssignment : Assignment :=
  { date := mkDayDate 1, fromAyah := "1:1", toAyah := "1:1", fromPage := 1, toPage := 1,
    completed := true, isCatchUpDay := false }

/-- A trivial Location Index on which every lookup misses. -/
def emptyIndex : QuranIndex :=
  ⟨fun _ => none, fun _ => none, fun _ => none, fun _ _ => none⟩

/-- A goal whose `target` lies outside the declared TS union. -/
def otherTargetGoal : UserGoal :=
  { target := .other, targetValue := none, unit := .pages, dailyAmount := 1,
    deadline := none, startDate := some 0, daysOfWeek := [0, 1, 2, 3, 4, 5, 6] }

/-- C10: for every assignment list and every evaluation time,
`calculateStreaks` reports a non-negative current streak and best streak
with current ≤ best. -/
theorem calculateStreaks_current_le_best (now : Int) (plan : List Assignment) :
    0 ≤ (calculateStreaks now plan).current ∧
    0 ≤ (calculateStreaks now plan).best ∧
    (calculateStreaks now plan).current ≤ (calculateStreaks now plan).best := by
  have h := streakFold_bounds now (sortByDate plan) (0, 0, 0)
    le_rfl le_rfl le_rfl le_rfl
  have hb : (0 : Int) ≤ ((sortByDate plan).foldl (streakStep now) (0, 0, 0)).2.1 :=
    le_trans h.1 h.2.2.1
  exact ⟨h.1, hb, h.2.2.1⟩

/-- C2 (code bug): in `calculateStreaks`, a completed assignment dated
strictly after `now` qualifies as streak-ending, because
`daysDiff = floor((now - t)/day) = -1 ≤ 1`; the code reports current
streak 1 where the claim — and the source's own comment, "If this is
today or yesterday" — requires 0. -/
theorem calculateStreaks_future_day_qualifies :
    calculateStreaks 0 [futureAssignment] = { current := 1, best := 1 } ∧
    0 < futureAssignment.date.time ∧
    jsFloorDiv (0 - futureAssignment.date.time) msPerDay = -1 := by
  refine ⟨?_, by decide, by decide⟩
  have h : sortByDate [futureAssignment] = [futureAssignment] :=
    List.mergeSort_singleton _
  simp only [calculateStreaks, h]
  decide

/-- C7 counterexample: the input `"2x:3"` does not consist of two
colon-separated integer fields, yet `parseAyahReference` returns
`some (2, 3)` — JS `parseInt` accepts the longest digit prefix `"2"` of
`"2x"` — and not the `none` the claim requires. -/
theorem parseAyahReference_accepts_junk_suffix :
    parseAyahReference "2x:3" = some (2, 3) ∧ parseAyahReference "2x:3" ≠ none := by
  constructor <;> decide

/-- C7 (amended): `parseAyahReference` is total and returns `some (a, b)`
exactly when splitting on `':'` yields two fields and JS `parseInt`
yields `a` and `b` on them; `parseInt`, however, accepts any field with
an integer prefix, so `"2x:3"` parses to `(2, 3)` while inputs with
zero or two-or-more colons, or a field with no leading integer, yield
`none`. -/
theorem parseAyahReference_characterization :
    (∀ s a b, parseAyahReference s = some (a, b) ↔
      ∃ p0 p1, jsSplitColon s = [p0, p1] ∧ jsParseInt p0 = some a ∧ jsParseInt p1 = some b) ∧
    parseAyahReference "" = none ∧
    parseAyahReference "604" = none ∧
    parseAyahReference "1:2:3" = none ∧
    parseAyahReference "x2:3" = none ∧
    parseAyahReference "2x:3" = some (2, 3) := by
  refine ⟨?_, by decide, by decide, by decide, by decide, by decide⟩
  intro s a b
  constructor
  · intro h
    unfold parseAyahReference at h
    split at h
    · next p0 p1 heq =>
        split at h
        · next s0 a0 h0 h1 =>
            refine ⟨p0, p1, heq, ?_, ?_⟩ <;> simp_all
        · simp at h
    · simp at h
  · rintro ⟨p0, p1, hs, h0, h1⟩
    unfold parseAyahReference
    rw [hs]
    dsimp only
    rw [h0, h1]

/-- C8: `generatePlan` returns the empty plan (and never raises — it is a
total function) whenever the resolved total is zero or no qualifying
reading date exists; the total resolves to zero for an unknown target
kind, for a specific-juz/surah target with a missing (or falsy-zero)
index, and for one the Location Index cannot resolve. -/
theorem generatePlan_empty_on_degenerate_input :
    (∀ idx goal, calculateTotalUnits idx goal = 0 → generatePlan idx goal = []) ∧
    (∀ idx goal, generateReadingDates goal (calculateTotalUnits idx goal) = [] →
      generatePlan idx goal = []) ∧
    (∀ idx goal, goal.target = .other → calculateTotalUnits idx goal = 0) ∧
    (∀ idx goal, (goal.target = .specificJuz ∨ goal.target = .specificSurah) →
      (goal.targetValue = none ∨ goal.targetValue = some 0) →
      calculateTotalUnits idx goal = 0) ∧
    (∀ idx goal tv, goal.target = .specificJuz → goal.targetValue = some tv →
      idx.getJuzById tv = none → calculateTotalUnits idx goal = 0) ∧
    (∀ idx goal tv, goal.target = .specificSurah → goal.targetValue = some tv →
      idx.getSurahById tv = none → calculateTotalUnits idx goal = 0) := by
  refine ⟨?_, ?_, ?_, ?_, ?_, ?_⟩
  · intro idx goal h
    simp [generatePlan, h]
  · intro idx goal h
    by_cases h0 : calculateTotalUnits idx goal = 0
    · simp [generatePlan, h0]
    · simp [generatePlan, h0, h]
  · intro idx goal h
    simp [calculateTotalUnits, h]
  · intro idx goal ht hv
    rcases ht with ht | ht <;> rcases hv with hv | hv <;> simp [calculateTotalUnits, ht, hv]
  · intro idx goal tv ht hv hj
    rcases eq_or_ne tv 0 with h0 | h0 <;> simp [calculateTotalUnits, ht, hv, hj, h0]
  · intro idx goal tv ht hv hs
    rcases eq_or_ne tv 0 with h0 | h0 <;> simp [calculateTotalUnits, ht, hv, hs, h0]

/-- C8 witness: the degenerate cases at concrete inputs — a goal with an
out-of-union target has total 0 and an empty plan. -/
theorem generatePlan_empty_witness :
    calculateTotalUnits emptyIndex otherTargetGoal = 0 ∧
    generatePlan emptyIndex otherTargetGoal = [] := by
  have h0 : calculateTotalUnits emptyIndex otherTargetGoal = 0 :=
    generatePlan_empty_on_degenerate_input.2.2.1 emptyIndex otherTargetGoal (by decide)
  exact ⟨h0, generatePlan_empty_on_degenerate_input.1 emptyIndex otherTargetGoal h0⟩

/-! ## C4: goal validation -/

/-- The §4.3 validation rules in the spec's check order, each as the
emitted message paired with the condition under which it fires (the
ordering rule applies only to a parsed deadline and a parsed start date,
the range rules only to a present, non-falsy target index).  This
definition follows the spec's wording and is compared against
`validateGoal`. -/
def validationChecks (goal : UserGoal) : List (String × Bool) :=
  [("At least one day of the week must be selected",
     decide (goal.daysOfWeek.length = 0)),
   ("Invalid start date", goal.startDate.isNone),
   ("Invalid deadline", decide (goal.deadline = some none)),
   ("Deadline must be after start date",
     match goal.deadline, goal.startDate with
     | some (some dl), some s => decide (dl < s)
     | _, _ => false),
   ("Daily amount must be greater than 0", decide (goal.dailyAmount ≤ 0)),
   ("Target value is required for specific juz or surah goals",
     decide ((goal.target = .specificJuz ∨ goal.target = .specificSurah) ∧
       (goal.targetValue = none ∨ goal.targetValue = some 0))),
   ("Juz number must be between 1 and 30",
     match goal.targetValue with
     | some tv => decide (goal.target = .specificJuz ∧ ¬tv = 0 ∧ (tv < 1 ∨ tv > 30))
     | none => false),
   ("Surah number must be between 1 and 114",
     match goal.targetValue with
     | some tv => decide (goal.target = .specificSurah ∧ ¬tv = 0 ∧ (tv < 1 ∨ tv > 114))
     | none => false)]

/-- The messages the deadline block contributes on an empty accumulator. -/
def dlSeg (deadline : Option (Option Int)) (startDate : Option Int) : List String :=
  match deadline with
  | none => []
  | some none => ["Invalid deadline"]
  | some (some dl) =>
    match startDate with
    | some s => if dl < s then ["Deadline must be after start date"] else []
    | none => []

/-- The messages the target block contributes on an empty accumulator. -/
def tgtSeg (target : Target) (targetValue : Option Int) : List String :=
  if target = .specificJuz ∨ target = .specificSurah then
    match targetValue with
    | none => ["Target value is required for specific juz or surah goals"]
    | some tv =>
      if tv = 0 then ["Target value is required for specific juz or surah goals"]
      else
        (if target = .specificJuz ∧ (tv < 1 ∨ tv > 30)
          then ["Juz number must be between 1 and 30"] else []) ++
        (if target = .specificSurah ∧ (tv < 1 ∨ tv > 114)
          then ["Surah number must be between 1 and 114"] else [])
  else []

/-- A conditional push distributes over the accumulator. -/
lemma ifAppendSingleton (c : Prop) [inst : Decidable c] (e : List String) (m : String) :
    (if c then e ++ [m] else e) = e ++ (if c then [m] else []) := by
  split <;> simp

lemma deadlineErrors_append (deadline : Option (Option Int)) (startDate : Option Int)
    (e : List String) :
    deadlineErrors deadline startDate e = e ++ dlSeg deadline startDate := by
  unfold deadlineErrors dlSeg
  rcases deadline with _ | (_ | dl)
  · simp
  · simp
  · rcases startDate with _ | s
    · simp
    · dsimp only
      split <;> simp

lemma targetErrors_append (t : Target) (tv : Option Int) (e : List String) :
    targetErrors t tv e = e ++ tgtSeg t tv := by
  unfold targetErrors tgtSeg
  split
  · rcases tv with _ | v
    · simp
    · dsimp only
      split
      · simp
      · simp only [ifAppendSingleton]
        simp
  · simp

/-- One step of the spec check list, as an append. -/
lemma filterMapCheck (s : String) (b : Bool) (l : List (String × Bool)) :
    (((s, b) :: l).filter (·.2)).map (·.1) =
      (if b = true then [s] else []) ++ (l.filter (·.2)).map (·.1) := by
  cases b <;> simp

/-- The two deadline entries of the check list produce `dlSeg`. -/
lemma dlSeg_eq_checks (deadline : Option (Option Int)) (startDate : Option Int)
    (rest : List String) :
    (if decide (deadline = some none) = true then ["Invalid deadline"] else []) ++
      ((if (match deadline, startDate with
            | some (some dl), some s => decide (dl < s)
            | _, _ => false) = true
         then ["Deadline must be after start date"] else []) ++ rest) =
      dlSeg deadline startDate ++ rest := by
  unfold dlSeg
  rcases deadline with _ | (_ | dl) <;> rcases startDate with _ | s <;>
    simp [decide_eq_true_eq] <;> split <;> simp_all

/-- The three target entries of the check list produce `tgtSeg`. -/
lemma tgtSeg_eq_checks (t : Target) (tv : Option Int) :
    (if decide ((t = .specificJuz ∨ t = .specificSurah) ∧
         (tv = none ∨ tv = some 0)) = true
      then ["Target value is required for specific juz or surah goals"] else []) ++
      ((if (match tv with
            | some v => decide (t = .specificJuz ∧ ¬v = 0 ∧ (v < 1 ∨ v > 30))
            | none => false) = true
         then ["Juz number must be between 1 and 30"] else []) ++
       (if (match tv with
            | some v => decide (t = .specificSurah ∧ ¬v = 0 ∧ (v < 1 ∨ v > 114))
            | none => false) = true
         then ["Surah number must be between 1 and 114"] else [])) =
      tgtSeg t tv := by
  unfold tgtSeg
  rcases tv with _ | v <;> cases t <;> simp [decide_eq_true_eq] <;>
    rcases eq_or_ne v 0 with h0 | h0 <;> simp [h0] <;> split <;> simp_all

set_option maxHeartbeats 800000 in
/-- C4: `validateGoal` is a pure total function that checks every rule
rather than stopping at the first violation: its error list equals the
messages of exactly the §4.3 checks that fire, in the spec's check
order, and `valid` holds iff the error list is empty. -/
theorem validateGoal_accumulates_all (goal : UserGoal) :
    (validateGoal goal).2 = ((validationChecks goal).filter (·.2)).map (·.1) ∧
    ((validateGoal goal).1 = true ↔ (validateGoal goal).2 = []) := by
  constructor
  · have hsnd : (validateGoal goal).2 =
        ((((if goal.daysOfWeek.length = 0
             then ["At least one day of the week must be selected"] else []) ++
            (if goal.startDate.isNone then ["Invalid start date"] else [])) ++
           dlSeg goal.deadline goal.startDate) ++
          (if goal.dailyAmount ≤ 0
            then ["Daily amount must be greater than 0"] else [])) ++
         tgtSeg goal.target goal.targetValue := by
      simp only [validateGoal]
      rw [targetErrors_append, ifAppendSingleton, deadlineErrors_append,
        ifAppendSingleton]
      simp only [ifAppendSingleton, List.nil_append]
    rw [hsnd]
    simp only [validationChecks, filterMapCheck, List.filter_nil, List.map_nil,
      List.append_nil]
    rw [dlSeg_eq_checks, tgtSeg_eq_checks]
    simp [decide_eq_true_eq, List.append_assoc]
  · have h : (validateGoal goal).1
        = decide ((validateGoal goal).2.length = 0) := rfl
    rw [h]
    simp [List.length_eq_zero]

/-! ## C9: completion toggles -/

/-- C9: `markDayAsComplete` sets `completed := true` on exactly the
assignments matching the given date by year/month/day, leaves every
other assignment — and every other field of matching assignments —
unchanged, preserves length and order, and recomputes the streaks and
the completed total from the updated plan; `markDayAsIncomplete` does
the same with `completed := false`. -/
theorem markDay_frame_and_recompute (now : Int) (s : GoalStoreState) (d : JSDate) :
    ((markDayAsComplete now s d).plan.length = s.plan.length ∧
      (markDayAsIncomplete now s d).plan.length = s.plan.length) ∧
    (∀ (i : Nat) (a : Assignment), s.plan[i]? = some a →
      (isSameDay a.date d = true →
        (markDayAsComplete now s d).plan[i]? = some { a with completed := true } ∧
        (markDayAsIncomplete now s d).plan[i]? = some { a with completed := false }) ∧
      (isSameDay a.date d = false →
        (markDayAsComplete now s d).plan[i]? = some a ∧
        (markDayAsIncomplete now s d).plan[i]? = some a)) ∧
    ((markDayAsComplete now s d).currentStreak
        = (calculateStreaks now (markDayAsComplete now s d).plan).current ∧
      (markDayAsComplete now s d).bestStreak
        = (calculateStreaks now (markDayAsComplete now s d).plan).best ∧
      (markDayAsComplete now s d).totalDaysCompleted
        = ((markDayAsComplete now s d).plan.filter (·.completed)).length) ∧
    ((markDayAsIncomplete now s d).currentStreak
        = (calculateStreaks now (markDayAsIncomplete now s d).plan).current ∧
      (markDayAsIncomplete now s d).bestStreak
        = (calculateStreaks now (markDayAsIncomplete now s d).plan).best ∧
      (markDayAsIncomplete now s d).totalDaysCompleted
        = ((markDayAsIncomplete now s d).plan.filter (·.completed)).length) := by
  refine ⟨⟨?_, ?_⟩, ?_, ⟨rfl, rfl, rfl⟩, ⟨rfl, rfl, rfl⟩⟩
  · simp [markDayAsComplete]
  · simp [markDayAsIncomplete]
  · intro i a ha
    constructor
    · intro hd
      constructor <;> simp [markDayAsComplete, markDayAsIncomplete, ha, hd]
    · intro hd
      constructor <;> simp [markDayAsComplete, markDayAsIncomplete, ha, hd]

/-- A two-assignment store state used to witness C9. -/
def witnessState : GoalStoreState :=
  { plan :=
      [{ date := mkDayDate 0, fromAyah := "1:1", toAyah := "1:7", fromPage := 1,
         toPage := 1, completed := false, isCatchUpDay := false },
       { date := mkDayDate 1, fromAyah := "2:1", toAyah := "2:5", fromPage := 2,
         toPage := 2, completed := false, isCatchUpDay := false }],
    currentStreak := 0, bestStreak := 0, totalDaysCompleted := 0 }

/-- C9 witness: marking day 0 complete in the concrete two-day state
completes exactly the first assignment and leaves the second alone. -/
theorem markDay_frame_witness :
    (∃ a, witnessState.plan[0]? = some a ∧
      (markDayAsComplete 0 witnessState (mkDayDate 0)).plan[0]?
        = some { a with completed := true }) ∧
    (∃ b, witnessState.plan[1]? = some b ∧
      (markDayAsComplete 0 witnessState (mkDayDate 0)).plan[1]? = some b) := by
  have h := (markDay_frame_and_recompute 0 witnessState (mkDayDate 0)).2.1
  constructor
  · refine ⟨witnessState.plan.head (by decide), ?_, ?_⟩
    · rfl
    · exact ((h 0 _ rfl).1 (by decide)).1
  · refine ⟨witnessState.plan.getLast (by decide), ?_, ?_⟩
    · rfl
    · exact ((h 1 _ rfl).2 (by decide)).1

/-! ## Arithmetic facts about `ceilDivI` -/

lemma ceilDivI_as_ediv {a d : Int} (hd : 0 < d) : ceilDivI a d = (a - 1) / d + 1 := by
  unfold ceilDivI
  rw [Int.fdiv_eq_ediv _ (le_of_lt hd)]
  have h : a + d - 1 = (a - 1) + 1 * d := by ring
  rw [h, Int.add_mul_ediv_right _ _ (ne_of_gt hd)]

lemma ceilDivI_pos {a d : Int} (hd : 0 < d) (ha : 0 < a) : 1 ≤ ceilDivI a d := by
  rw [ceilDivI_as_ediv hd]
  have h : 0 ≤ (a - 1) / d := Int.ediv_nonneg (by omega) (le_of_lt hd)
  omega

lemma ceilDivI_eq_one {a d : Int} (hd : 0 < d) (ha : 0 < a) (h : a ≤ d) :
    ceilDivI a d = 1 := by
  rw [ceilDivI_as_ediv hd, Int.ediv_eq_zero_of_lt (by omega) (by omega)]
  omega

lemma ceilDivI_step {a d : Int} (hd : 0 < d) (_h : d < a) :
    ceilDivI a d = ceilDivI (a - d) d + 1 := by
  rw [ceilDivI_as_ediv hd, ceilDivI_as_ediv hd]
  have h1 : a - d - 1 = (a - 1) + (-1) * d := by ring
  rw [h1, Int.add_mul_ediv_right _ _ (ne_of_gt hd)]
  ring

lemma ceilDivI_nonneg {a d : Int} (hd : 0 < d) (ha : 0 ≤ a) : 0 ≤ ceilDivI a d := by
  rcases eq_or_lt_of_le ha with h | h
  · rw [← h]
    unfold ceilDivI
    rw [Int.fdiv_eq_ediv _ (le_of_lt hd), Int.ediv_eq_zero_of_lt (by omega) (by omega)]
  · have := ceilDivI_pos hd h
    omega

/-! ## Facts about the reading-date loop -/

lemma readLoop_mem_ge (dow : List Int) (dl : Option (Option Int)) (needed : Int) :
    ∀ (fuel : Nat) (cur da : Int) (acc : List Int) (x : Int),
      x ∈ generateReadingDatesLoop dow dl needed fuel cur da acc →
      x ∈ acc ∨ cur ≤ x := by
  intro fuel
  induction fuel with
  | zero => intro cur da acc x hx; exact Or.inl hx
  | succ fuel ih =>
    intro cur da acc x hx
    unfold generateReadingDatesLoop at hx
    split at hx
    · split at hx
      · split at hx
        · exact Or.inl hx
        · rcases ih _ _ _ _ hx with h | h
          · rcases List.mem_append.1 h with h | h
            · exact Or.inl h
            · simp at h
              omega
          · omega
      · rcases ih _ _ _ _ hx with h | h
        · exact Or.inl h
        · omega
    · exact Or.inl hx

lemma readLoop_pairwise (dow : List Int) (dl : Option (Option Int)) (needed : Int) :
    ∀ (fuel : Nat) (cur da : Int) (acc : List Int),
      acc.Pairwise (· < ·) → (∀ y ∈ acc, y < cur) →
      (generateReadingDatesLoop dow dl needed fuel cur da acc).Pairwise (· < ·) := by
  intro fuel
  induction fuel with
  | zero => intro cur da acc hp _; exact hp
  | succ fuel ih =>
    intro cur da acc hp hlt
    have hstep : (acc ++ [cur]).Pairwise (· < ·) := by
      rw [List.pairwise_append]
      exact ⟨hp, List.pairwise_singleton _ _, by simpa using hlt⟩
    have hstep2 : ∀ y ∈ acc ++ [cur], y < cur + 1 := by
      intro y hy
      rcases List.mem_append.1 hy with h | h
      · have := hlt y h
        omega
      · simp at h
        omega
    unfold generateReadingDatesLoop
    split
    · split
      · split
        · exact hp
        · exact ih _ _ _ hstep hstep2
      · exact ih _ _ _ hp (fun y hy => lt_trans (hlt y hy) (by omega))
    · exact hp

lemma readLoop_le_deadline (dow : List Int) (dlv needed : Int) :
    ∀ (fuel : Nat) (cur da : Int) (acc : List Int),
      (∀ y ∈ acc, y ≤ dlv) →
      ∀ x ∈ generateReadingDatesLoop dow (some (some dlv)) needed fuel cur da acc,
        x ≤ dlv := by
  intro fuel
  induction fuel with
  | zero => intro cur da acc hacc x hx; exact hacc x hx
  | succ fuel ih =>
    intro cur da acc hacc x hx
    unfold generateReadingDatesLoop at hx
    split at hx
    · split at hx
      · split at hx
        · exact hacc x hx
        · next hpast =>
            refine ih _ _ _ ?_ x hx
            intro y hy
            rcases List.mem_append.1 hy with h | h
            · exact hacc y h
            · simp only [List.mem_singleton] at h
              simp only [pastDeadline, decide_eq_true_eq] at hpast
              omega
      · exact ih _ _ _ hacc x hx
    · exact hacc x hx

/-- With every weekday active and no deadline, the loop collects exactly
the next `r` consecutive days, where `r` is the number of days still
needed. -/
lemma readLoop_all_weekdays (dow : List Int) (needed : Int)
    (hW : ∀ w : Int, 0 ≤ w → w < 7 → w ∈ dow) :
    ∀ (r fuel : Nat), r ≤ fuel → ∀ (cur da : Int) (acc : List Int),
      da + (r : Int) = needed →
      generateReadingDatesLoop dow none needed fuel cur da acc =
        acc ++ (List.range r).map (fun k : Nat => cur + (k : Int)) := by
  intro r
  induction r with
  | zero =>
    intro fuel _ cur da acc hda
    cases fuel with
    | zero => simp [generateReadingDatesLoop]
    | succ fuel =>
      unfold generateReadingDatesLoop
      rw [if_neg (by omega)]
      simp
  | succ r ih =>
    intro fuel hfuel cur da acc hda
    obtain ⟨fuel, rfl⟩ : ∃ f, fuel = f + 1 := ⟨fuel - 1, by omega⟩
    unfold generateReadingDatesLoop
    have hmem : jsDayOfWeek cur ∈ dow := by
      apply hW <;> unfold jsDayOfWeek <;> omega
    rw [if_pos (by push_cast at hda; omega),
      if_pos (List.elem_eq_true_of_mem hmem),
      if_neg (by simp [pastDeadline]),
      ih fuel (by omega) (cur + 1) (da + 1) (acc ++ [cur]) (by push_cast at hda ⊢; omega)]
    rw [List.range_succ_eq_map, List.append_assoc]
    congr 1
    simp only [List.map_cons, List.singleton_append, List.map_map, Nat.cast_zero,
      add_zero, List.cons_append, List.nil_append]
    refine congrArg (cur :: ·) (List.map_congr_left fun k _ => ?_)
    simp only [Function.comp, Nat.succ_eq_add_one]
    push_cast
    ring

/-- `generateReadingDates` under all-active weekdays and no deadline:
exactly `ceil(total / dailyAmount)` consecutive days from the start. -/
lemma generateReadingDates_all_weekdays (goal : UserGoal) (total s : Int)
    (hs : goal.startDate = some s) (hdl : goal.deadline = none)
    (hW : ∀ w : Int, 0 ≤ w → w < 7 → w ∈ goal.daysOfWeek)
    (hd : 0 < goal.dailyAmount) (ht : 0 < total) :
    generateReadingDates goal total =
      (List.range (ceilDivI total goal.dailyAmount).toNat).map (fun k : Nat => s + (k : Int)) := by
  unfold generateReadingDates
  rw [hs]
  dsimp only
  have hpos := ceilDivI_pos hd ht
  rw [hdl, readLoop_all_weekdays goal.daysOfWeek _ hW
    (ceilDivI total goal.dailyAmount).toNat
    ((ceilDivI total goal.dailyAmount) * 10).toNat (by omega) s 0 [] (by omega)]
  simp

/-! ## Facts about the distribution loop (pages branch) -/

/-- The assignment the pages branch pushes for day `date` at cursor `c`. -/
def pageAsg (idx : QuranIndex) (goal : UserGoal) (date c e : Int) : Assignment :=
  { date := mkDayDate date,
    fromAyah := (getAyahsForPageRange idx c (min (c + goal.dailyAmount - 1) e)).1,
    toAyah := (getAyahsForPageRange idx c (min (c + goal.dailyAmount - 1) e)).2,
    fromPage := c, toPage := min (c + goal.dailyAmount - 1) e,
    completed := false, isCatchUpDay := false }

/-- The distribution loop only ever appends to its accumulator. -/
lemma planLoop_append (idx : QuranIndex) (goal : UserGoal) (e : Int) (ea : String) :
    ∀ (ds : List Int) (cp : Int) (ca : String) (acc : List Assignment),
      generatePlanLoop idx goal e ea ds cp ca acc =
        acc ++ generatePlanLoop idx goal e ea ds cp ca [] := by
  intro ds
  induction ds with
  | nil => intro cp ca acc; simp [generatePlanLoop]
  | cons date rest ih =>
    intro cp ca acc
    unfold generatePlanLoop
    split
    all_goals dsimp only
    all_goals try split
    all_goals try split
    all_goals try split
    all_goals
      solve
        | simp
        | ((conv_lhs => rw [ih]); (conv_rhs => rw [ih]); simp)

/-- One step of the distribution loop in the pages branch. -/
lemma planLoop_cons_pages (idx : QuranIndex) (goal : UserGoal) (e : Int) (ea : String)
    (hu : goal.unit = .pages) (date : Int) (rest : List Int) (c : Int) (ca : String) :
    generatePlanLoop idx goal e ea (date :: rest) c ca [] =
      if min (c + goal.dailyAmount - 1) e + 1 > e
      then [pageAsg idx goal date c e]
      else pageAsg idx goal date c e ::
        generatePlanLoop idx goal e ea rest (min (c + goal.dailyAmount - 1) e + 1) ca [] := by
  conv_lhs => unfold generatePlanLoop
  rw [if_pos hu]
  dsimp only
  split
  · rfl
  · rw [planLoop_append]
    rfl

/-- The pages branch of the distribution loop, given enough reading dates:
the plan has exactly `ceil(pagesLeft / dailyAmount)` assignments, starts
at the cursor, ends at the ending page, each assignment covers
`[fromPage, min(fromPage + dailyAmount - 1, e)]`, and consecutive
assignments chain. -/
lemma planLoop_pages (idx : QuranIndex) (goal : UserGoal) (e : Int) (ea : String)
    (hu : goal.unit = .pages) (hd : 0 < goal.dailyAmount) :
    ∀ (ds : List Int) (c : Int) (ca : String),
      c ≤ e →
      ceilDivI (e - c + 1) goal.dailyAmount ≤ (ds.length : Int) →
      (generatePlanLoop idx goal e ea ds c ca []).length
          = (ceilDivI (e - c + 1) goal.dailyAmount).toNat ∧
      (generatePlanLoop idx goal e ea ds c ca []).head?.map (·.fromPage) = some c ∧
      (generatePlanLoop idx goal e ea ds c ca []).getLast?.map (·.toPage) = some e ∧
      (∀ (i : Nat) (a : Assignment),
        (generatePlanLoop idx goal e ea ds c ca [])[i]? = some a →
        a.toPage = min (a.fromPage + goal.dailyAmount - 1) e) ∧
      (∀ (i : Nat) (a b : Assignment),
        (generatePlanLoop idx goal e ea ds c ca [])[i]? = some a →
        (generatePlanLoop idx goal e ea ds c ca [])[i + 1]? = some b →
        b.fromPage = a.toPage + 1) := by
  intro ds
  induction ds with
  | nil =>
    intro c ca hc hlen
    exfalso
    have := ceilDivI_pos hd (show (0 : Int) < e - c + 1 by omega)
    simp at hlen
    omega
  | cons date rest ih =>
    intro c ca hc hlen
    rw [planLoop_cons_pages idx goal e ea hu]
    by_cases hlast : e - c + 1 ≤ goal.dailyAmount
    · have hmin : min (c + goal.dailyAmount - 1) e = e := by omega
      have hceil : ceilDivI (e - c + 1) goal.dailyAmount = 1 :=
        ceilDivI_eq_one hd (by omega) hlast
      rw [if_pos (by omega)]
      refine ⟨by simp [hceil], by simp [pageAsg], by simp [pageAsg, hmin], ?_, ?_⟩
      · intro i a ha
        rcases i with _ | i
        · simp at ha
          simp [← ha, pageAsg]
        · simp at ha
      · intro i a b _ hb
        rcases i with _ | i <;> simp at hb
    · have hceil : ceilDivI (e - c + 1) goal.dailyAmount
          = ceilDivI (e - (c + goal.dailyAmount) + 1) goal.dailyAmount + 1 := by
        have h := ceilDivI_step hd (show goal.dailyAmount < e - c + 1 by omega)
        have harg : e - c + 1 - goal.dailyAmount = e - (c + goal.dailyAmount) + 1 := by ring
        rw [h, harg]
      have hcur : min (c + goal.dailyAmount - 1) e + 1 = c + goal.dailyAmount := by omega
      rw [if_neg (by omega), hcur]
      have hrest : ceilDivI (e - (c + goal.dailyAmount) + 1)
          goal.dailyAmount ≤ (rest.length : Int) := by
        have hlen' : (rest.length : Int) = ((date :: rest).length : Int) - 1 := by simp
        omega
      have hc' : c + goal.dailyAmount ≤ e := by omega
      obtain ⟨ihl, ihh, ihg, ihp, ihchain⟩ := ih (c + goal.dailyAmount) ca hc' hrest
      have hpos' := ceilDivI_pos hd
        (show (0 : Int) < e - (c + goal.dailyAmount) + 1 by omega)
      obtain ⟨b0, out', hout⟩ : ∃ b0 out',
          generatePlanLoop idx goal e ea rest (c + goal.dailyAmount) ca []
            = b0 :: out' := by
        cases hcase : generatePlanLoop idx goal e ea rest (c + goal.dailyAmount) ca [] with
        | nil => rw [hcase] at ihl; simp at ihl; omega
        | cons b0 out' => exact ⟨b0, out', rfl⟩
      refine ⟨?_, by simp [pageAsg], ?_, ?_, ?_⟩
      · simp only [List.length_cons, ihl, hceil]
        omega
      · rw [hout, List.getLast?_cons_cons, ← hout]
        exact ihg
      · intro i a ha
        rcases i with _ | i
        · simp at ha
          simp [← ha, pageAsg]
        · rw [List.getElem?_cons_succ] at ha
          exact ihp i a ha
      · intro i a b ha hb
        rcases i with _ | i
        · simp at ha
          rw [List.getElem?_cons_succ, hout, List.getElem?_cons_zero] at hb
          simp at hb
          have hb0 : b0.fromPage = c + goal.dailyAmount := by
            have := ihh
            rw [hout] at this
            simp at this
            omega
          rw [← ha, ← hb]
          simp only [pageAsg]
          omega
        · rw [List.getElem?_cons_succ] at ha hb
          exact ihchain i a b ha hb

/-- C1: for a whole-Quran goal with unit pages, daily amount `d > 0`, all
seven weekdays active and no deadline, `generatePlan` returns
`ceil(604/d)` assignments whose first starts at page 1 and last ends at
page 604; each assignment covers `[fromPage, min(fromPage + d - 1, 604)]`
and consecutive assignments chain with `fromPage = previous toPage + 1`
(for every Location Index and start day). -/
theorem generatePlan_whole_quran_pages (idx : QuranIndex) (startDay d : Int)
    (hd : 0 < d) :
    let plan := generatePlan idx
      { target := .wholeQuran, targetValue := none, unit := .pages, dailyAmount := d,
        deadline := none, startDate := some startDay,
        daysOfWeek := [0, 1, 2, 3, 4, 5, 6] }
    plan.length = (ceilDivI 604 d).toNat ∧
    plan.head?.map (·.fromPage) = some 1 ∧
    plan.getLast?.map (·.toPage) = some 604 ∧
    (∀ (i : Nat) (a : Assignment), plan[i]? = some a →
      a.toPage = min (a.fromPage + d - 1) 604) ∧
    (∀ (i : Nat) (a b : Assignment), plan[i]? = some a → plan[i + 1]? = some b →
      b.fromPage = a.toPage + 1) := by
  intro plan
  set g : UserGoal :=
    { target := .wholeQuran, targetValue := none, unit := .pages, dailyAmount := d,
      deadline := none, startDate := some startDay,
      daysOfWeek := [0, 1, 2, 3, 4, 5, 6] } with hg
  have hW : ∀ w : Int, 0 ≤ w → w < 7 → w ∈ g.daysOfWeek := by
    intro w h1 h2
    interval_cases w <;> simp
  have hpos : 1 ≤ ceilDivI 604 d := ceilDivI_pos hd (by omega)
  have hdates : generateReadingDates g 604 =
      (List.range (ceilDivI 604 d).toNat).map (fun k : Nat => startDay + (k : Int)) := by
    have h := generateReadingDates_all_weekdays g 604 startDay rfl rfl hW hd (by omega)
    simpa using h
  have hdlen : ((generateReadingDates g 604).length : Int) = ceilDivI 604 d := by
    rw [hdates]
    simp
    omega
  have htot : calculateTotalUnits idx g = 604 := rfl
  have hsp : getStartingPage idx g = 1 := rfl
  have hep : getEndingPage idx g = 604 := rfl
  have hsa : getStartingAyah idx g = "1:1" := rfl
  have hea : getEndingAyah idx g = "114:6" := rfl
  have hplan : plan = generatePlanLoop idx g 604 "114:6"
      (generateReadingDates g 604) 1 "1:1" [] := by
    show generatePlan idx g = _
    unfold generatePlan
    rw [htot, hsp, hep, hsa, hea, if_neg (by norm_num), if_neg (by omega)]
  have harg : (604 : Int) - 1 + 1 = 604 := by norm_num
  have hceil : ceilDivI (604 - 1 + 1) d ≤ ((generateReadingDates g 604).length : Int) := by
    rw [harg]
    omega
  obtain ⟨hl, hh, hgl, hp, hchain⟩ := planLoop_pages idx g 604 "114:6" rfl hd
    (generateReadingDates g 604) 1 "1:1" (by omega) hceil
  rw [harg] at hl
  rw [hplan]
  exact ⟨hl, hh, hgl, fun i a ha => hp i a ha, hchain⟩

/-- The concrete whole-Quran goal used to witness C1: 7 pages a day from
day 0, every weekday active. -/
def wholeQuranSevenPages : UserGoal :=
  { target := .wholeQuran, targetValue := none, unit := .pages, dailyAmount := 7,
    deadline := none, startDate := some 0, daysOfWeek := [0, 1, 2, 3, 4, 5, 6] }

/-- C1 witness: at 7 pages a day the plan has `ceil(604/7) = 87` days,
starts at page 1 and ends at page 604. -/
theorem generatePlan_whole_quran_pages_witness :
    (generatePlan emptyIndex wholeQuranSevenPages).length = 87 ∧
    (generatePlan emptyIndex wholeQuranSevenPages).head?.map (·.fromPage) = some 1 ∧
    (generatePlan emptyIndex wholeQuranSevenPages).getLast?.map (·.toPage) = some 604 := by
  unfold wholeQuranSevenPages
  have h := generatePlan_whole_quran_pages emptyIndex 0 7 (by norm_num)
  exact ⟨by rw [h.1]; decide, h.2.1, h.2.2.1⟩

/-! ## C5: deadlines bound every assignment date -/

/-- Every assignment the distribution loop produces is dated on one of
the supplied reading dates. -/
lemma planLoop_dates_subset (idx : QuranIndex) (goal : UserGoal) (e : Int) (ea : String) :
    ∀ (ds : List Int) (cp : Int) (ca : String),
      ∀ a ∈ generatePlanLoop idx goal e ea ds cp ca [],
        ∃ day ∈ ds, a.date = mkDayDate day := by
  intro ds
  induction ds with
  | nil =>
    intro cp ca a ha
    simp [generatePlanLoop] at ha
  | cons date rest ih =>
    intro cp ca a ha
    unfold generatePlanLoop at ha
    have push : ∀ (A : Assignment) (cp' : Int) (ca' : String),
        A.date = mkDayDate date →
        a ∈ generatePlanLoop idx goal e ea rest cp' ca' ([] ++ [A]) →
        ∃ day ∈ date :: rest, a.date = mkDayDate day := by
      intro A cp' ca' hA hmem
      rw [planLoop_append] at hmem
      rcases List.mem_append.1 hmem with h | h
      · simp at h
        exact ⟨date, by simp, by rw [h, hA]⟩
      · obtain ⟨day, hday, hdate⟩ := ih cp' ca' a h
        exact ⟨day, by simp [hday], hdate⟩
    split at ha
    · dsimp only at ha
      split at ha
      · rw [List.nil_append, List.mem_singleton] at ha
        exact ⟨date, by simp, by rw [ha]⟩
      · exact push _ _ _ rfl ha
    · split at ha
      · dsimp only at ha
        split at ha
        · split at ha
          · rw [List.nil_append, List.mem_singleton] at ha
            exact ⟨date, by simp, by rw [ha]⟩
          · exact push _ _ _ rfl ha
        · exact push _ _ _ rfl ha
      · dsimp only at ha
        split at ha
        · rw [List.nil_append, List.mem_singleton] at ha
          exact ⟨date, by simp, by rw [ha]⟩
        · exact push _ _ _ rfl ha

/-- The distribution loop yields at most one assignment per reading
date. -/
lemma planLoop_length_le_aux (idx : QuranIndex) (goal : UserGoal) (e : Int) (ea : String) :
    ∀ (ds : List Int) (cp : Int) (ca : String) (acc : List Assignment),
      (generatePlanLoop idx goal e ea ds cp ca acc).length ≤ acc.length + ds.length := by
  intro ds
  induction ds with
  | nil =>
    intro cp ca acc
    simp [generatePlanLoop]
  | cons date rest ih =>
    intro cp ca acc
    unfold generatePlanLoop
    split
    all_goals dsimp only
    all_goals try split
    all_goals try split
    all_goals try split
    all_goals
      solve
        | simp
        | (simp; omega)
        | (exact le_trans (ih _ _ _) (by simp; omega))
        | (exact le_trans (ih _ _ _) (by simp))
        | (exact le_trans (ih _ _ _) (by simp [Nat.add_assoc]))

/-- Specialisation of `planLoop_length_le_aux` to an empty accumulator. -/
lemma planLoop_length_le (idx : QuranIndex) (goal : UserGoal) (e : Int) (ea : String)
    (ds : List Int) (cp : Int) (ca : String) :
    (generatePlanLoop idx goal e ea ds cp ca []).length ≤ ds.length := by
  have h := planLoop_length_le_aux idx goal e ea ds cp ca []
  simpa using h

/-- With a valid deadline set, every enumerated reading date is at most
the deadline day. -/
lemma generateReadingDates_le_deadline (goal : UserGoal) (total dlv : Int)
    (hdl : goal.deadline = some (some dlv)) :
    ∀ x ∈ generateReadingDates goal total, x ≤ dlv := by
  intro x hx
  unfold generateReadingDates at hx
  rcases hsd : goal.startDate with _ | s <;> rw [hsd] at hx
  · simp at hx
  · rw [hdl] at hx
    exact readLoop_le_deadline goal.daysOfWeek dlv _ _ _ _ [] (by simp) x hx

/-- A strictly increasing integer list inside `[lo, hi]` has at most
`hi - lo + 1` entries. -/
lemma length_le_of_chain_mem_Icc (l : List Int) (lo hi : Int) (hb : lo ≤ hi + 1)
    (hp : l.Pairwise (· < ·)) (hmem : ∀ x ∈ l, lo ≤ x ∧ x ≤ hi) :
    (l.length : Int) ≤ hi - lo + 1 := by
  have hnd : l.Nodup := hp.imp ne_of_lt
  have hsub : l.toFinset ⊆ Finset.Icc lo hi := by
    intro x hx
    rw [List.mem_toFinset] at hx
    rw [Finset.mem_Icc]
    exact hmem x hx
  have hcard := Finset.card_le_card hsub
  rw [List.toFinset_card_of_nodup hnd, Int.card_Icc] at hcard
  omega

/-- C5: with a deadline set, every assignment `generatePlan` produces is
dated at or before the deadline day (enumeration stops at the first
qualifying day past the deadline and excludes it); concretely, a
whole-Quran pages goal at one page a day starting day `D` with deadline
`D + 30` yields at most 31 assignments, all dated at most the
deadline. -/
theorem generatePlan_respects_deadline :
    (∀ (idx : QuranIndex) (goal : UserGoal) (dlv : Int),
      goal.deadline = some (some dlv) →
      ∀ a ∈ generatePlan idx goal, a.date.time ≤ dlv * msPerDay) ∧
    (∀ (idx : QuranIndex) (D : Int),
      (generatePlan idx
        { target := .wholeQuran, targetValue := none, unit := .pages, dailyAmount := 1,
          deadline := some (some (D + 30)), startDate := some D,
          daysOfWeek := [0, 1, 2, 3, 4, 5, 6] }).length ≤ 31 ∧
      ∀ a ∈ generatePlan idx
        { target := .wholeQuran, targetValue := none, unit := .pages, dailyAmount := 1,
          deadline := some (some (D + 30)), startDate := some D,
          daysOfWeek := [0, 1, 2, 3, 4, 5, 6] },
        a.date.time ≤ (D + 30) * msPerDay) := by
  have main : ∀ (idx : QuranIndex) (goal : UserGoal) (dlv : Int),
      goal.deadline = some (some dlv) →
      ∀ a ∈ generatePlan idx goal, a.date.time ≤ dlv * msPerDay := by
    intro idx goal dlv hdl a ha
    unfold generatePlan at ha
    dsimp only at ha
    split at ha
    · simp at ha
    · split at ha
      · simp at ha
      · obtain ⟨day, hday, hdate⟩ :=
          planLoop_dates_subset idx goal (getEndingPage idx goal) (getEndingAyah idx goal)
            _ _ _ a ha
        have hle := generateReadingDates_le_deadline goal _ dlv hdl day hday
        rw [hdate]
        show day * msPerDay ≤ dlv * msPerDay
        have hms : (0 : Int) < msPerDay := by norm_num [msPerDay]
        exact mul_le_mul_of_nonneg_right hle (le_of_lt hms)
  refine ⟨main, ?_⟩
  intro idx D
  constructor
  · set g : UserGoal :=
      { target := .wholeQuran, targetValue := none, unit := .pages, dailyAmount := 1,
        deadline := some (some (D + 30)), startDate := some D,
        daysOfWeek := [0, 1, 2, 3, 4, 5, 6] } with hg
    show (generatePlan idx g).length ≤ 31
    unfold generatePlan
    dsimp only
    split
    · simp
    · split
      · simp
      · refine le_trans (planLoop_length_le idx g _ _ _ _ _) ?_
        -- the reading dates are strictly increasing and lie in [D, D + 30]
        have hdates : ∀ x ∈ generateReadingDates g (calculateTotalUnits idx g),
            D ≤ x ∧ x ≤ D + 30 := by
          intro x hx
          constructor
          · unfold generateReadingDates at hx
            have hsd : g.startDate = some D := rfl
            rw [hsd] at hx
            rcases readLoop_mem_ge _ _ _ _ _ _ _ _ hx with h | h
            · simp at h
            · exact h
          · exact generateReadingDates_le_deadline g _ (D + 30) rfl x hx
        have hpair : (generateReadingDates g (calculateTotalUnits idx g)).Pairwise
            (· < ·) := by
          unfold generateReadingDates
          have hsd : g.startDate = some D := rfl
          rw [hsd]
          exact readLoop_pairwise _ _ _ _ _ _ [] (by simp) (by simp)
        have hlen := length_le_of_chain_mem_Icc _ D (D + 30) (by omega) hpair hdates
        omega
  · intro a ha
    exact main idx _ (D + 30) rfl a ha

/-! ## C6: the enumeration completes within the iteration cap -/

/-- Some offset within the next seven days hits an active weekday. -/
lemma exists_qualifying_offset (dow : List Int) (w : Int) (hw : w ∈ dow)
    (h0 : 0 ≤ w) (h7 : w < 7) (cur : Int) :
    ∃ j : Nat, j < 7 ∧ dow.contains (jsDayOfWeek (cur + (j : Int))) = true := by
  refine ⟨(((w - cur - 4) % 7).toNat : Nat), by omega, ?_⟩
  have hjs : jsDayOfWeek (cur + ((((w - cur - 4) % 7).toNat : Nat) : Int)) = w := by
    unfold jsDayOfWeek
    omega
  rw [hjs]
  exact List.elem_eq_true_of_mem hw

/-- The loop skips the non-qualifying days before the first active
weekday and then collects it. -/
lemma readLoop_skip_step (dow : List Int) (needed : Int) :
    ∀ (j : Nat) (fuel : Nat) (cur da : Int) (acc : List Int),
      (∀ i : Nat, i < j → dow.contains (jsDayOfWeek (cur + (i : Int))) = false) →
      dow.contains (jsDayOfWeek (cur + (j : Int))) = true →
      da < needed → j + 1 ≤ fuel →
      generateReadingDatesLoop dow none needed fuel cur da acc =
        generateReadingDatesLoop dow none needed (fuel - (j + 1)) (cur + (j : Int) + 1)
          (da + 1) (acc ++ [cur + (j : Int)]) := by
  intro j
  induction j with
  | zero =>
    intro fuel cur da acc _ hq hda hfuel
    obtain ⟨f, rfl⟩ : ∃ f, fuel = f + 1 := ⟨fuel - 1, by omega⟩
    conv_lhs => unfold generateReadingDatesLoop
    rw [if_pos hda, if_pos (by simpa using hq), if_neg (by simp [pastDeadline])]
    norm_num
  | succ j ih =>
    intro fuel cur da acc hmin hq hda hfuel
    obtain ⟨f, rfl⟩ : ∃ f, fuel = f + 1 := ⟨fuel - 1, by omega⟩
    conv_lhs => unfold generateReadingDatesLoop
    rw [if_pos hda, if_neg (by simpa using hmin 0 (by omega))]
    have hstep := ih f (cur + 1) da acc
      (fun i hi => by
        have := hmin (i + 1) (by omega)
        convert this using 3
        push_cast
        ring)
      (by
        convert hq using 3
        push_cast
        ring)
      hda (by omega)
    rw [hstep]
    have e1 : f - (j + 1) = f + 1 - (j + 1 + 1) := by omega
    have e2 : cur + 1 + (j : Int) = cur + (((j + 1 : Nat) : Int)) := by
      push_cast
      ring
    rw [e1, e2]

/-- With an active weekday in range, no deadline and `r` more days
needed, the loop finishes with the same `r` extra dates for every fuel of
at least `7 r` iterations: the cap is never the binding constraint. -/
lemma readLoop_completes (dow : List Int) (needed : Int) (w : Int) (hw : w ∈ dow)
    (h0 : 0 ≤ w) (h7 : w < 7) :
    ∀ (r : Nat) (cur da : Int) (acc : List Int), da + (r : Int) = needed →
      ∃ tail : List Int, tail.length = r ∧
        ∀ f : Nat, 7 * r ≤ f →
          generateReadingDatesLoop dow none needed f cur da acc = acc ++ tail := by
  intro r
  induction r with
  | zero =>
    intro cur da acc hda
    refine ⟨[], rfl, ?_⟩
    intro f _
    cases f with
    | zero => simp [generateReadingDatesLoop]
    | succ f =>
      unfold generateReadingDatesLoop
      rw [if_neg (by omega)]
      simp
  | succ r ih =>
    intro cur da acc hda
    obtain ⟨j0, hj0, hq0⟩ := exists_qualifying_offset dow w hw h0 h7 cur
    have hP : ∃ j : Nat, dow.contains (jsDayOfWeek (cur + (j : Int))) = true := ⟨j0, hq0⟩
    set j := Nat.find hP with hj
    have hqj : dow.contains (jsDayOfWeek (cur + (j : Int))) = true := Nat.find_spec hP
    have hminj : ∀ i : Nat, i < j → dow.contains (jsDayOfWeek (cur + (i : Int))) = false := by
      intro i hi
      have := Nat.find_min hP hi
      simpa using this
    have hjlt : j < 7 := lt_of_le_of_lt (Nat.find_min' hP hq0) hj0
    obtain ⟨tail', hlen', hloop'⟩ := ih (cur + (j : Int) + 1) (da + 1)
      (acc ++ [cur + (j : Int)]) (by push_cast at hda ⊢; omega)
    refine ⟨(cur + (j : Int)) :: tail', by simp [hlen'], ?_⟩
    intro f hf
    rw [readLoop_skip_step dow needed j f cur da acc hminj hqj (by push_cast at hda ⊢; omega)
      (by omega)]
    rw [hloop' (f - (j + 1)) (by omega)]
    simp

/-- C6: for positive daily amount and total, enumeration always halts
within the `10 × ceil(total/dailyAmount)` iteration cap; when some valid
weekday is active and no deadline is set, the cap is never why it stops:
exactly `ceil(total/dailyAmount)` dates come back, strictly increasing
(hence pairwise distinct), and every fuel beyond the cap returns the
same list. -/
theorem generateReadingDates_complete (goal : UserGoal) (total s w : Int)
    (hd : 0 < goal.dailyAmount) (ht : 0 < total) (hdl : goal.deadline = none)
    (hs : goal.startDate = some s) (hw : w ∈ goal.daysOfWeek) (h0 : 0 ≤ w) (h7 : w < 7) :
    (generateReadingDates goal total).length = (ceilDivI total goal.dailyAmount).toNat ∧
    (generateReadingDates goal total).Pairwise (· < ·) ∧
    (generateReadingDates goal total).Nodup ∧
    ∀ f : Nat, (ceilDivI total goal.dailyAmount * 10).toNat ≤ f →
      generateReadingDatesLoop goal.daysOfWeek goal.deadline
          (ceilDivI total goal.dailyAmount) f s 0 [] =
        generateReadingDates goal total := by
  have hpos : 1 ≤ ceilDivI total goal.dailyAmount := ceilDivI_pos hd ht
  obtain ⟨tail, hlen, hloop⟩ := readLoop_completes goal.daysOfWeek
    (ceilDivI total goal.dailyAmount) w hw h0 h7
    (ceilDivI total goal.dailyAmount).toNat s 0 [] (by omega)
  have hdates : generateReadingDates goal total = tail := by
    unfold generateReadingDates
    rw [hs]
    dsimp only
    rw [hdl, hloop ((ceilDivI total goal.dailyAmount) * 10).toNat (by omega)]
    simp
  refine ⟨by rw [hdates, hlen], ?_, ?_, ?_⟩
  · unfold generateReadingDates
    rw [hs]
    dsimp only
    exact readLoop_pairwise _ _ _ _ _ _ [] (by simp) (by simp)
  · have hp : (generateReadingDates goal total).Pairwise (· < ·) := by
      unfold generateReadingDates
      rw [hs]
      dsimp only
      exact readLoop_pairwise _ _ _ _ _ _ [] (by simp) (by simp)
    exact hp.imp ne_of_lt
  · intro f hf
    rw [hdates, hdl]
    exact hloop f (by omega)

/-- A goal that reads only on Mondays, used to witness C6. -/
def mondayGoal : UserGoal :=
  { target := .wholeQuran, targetValue := none, unit := .pages, dailyAmount := 3,
    deadline := none, startDate := some 0, daysOfWeek := [1] }

/-- C6 witness: with weekday 1 active, daily amount 3 and total 10, the
enumeration returns exactly `ceil(10/3) = 4` distinct dates. -/
theorem generateReadingDates_complete_witness :
    (generateReadingDates mondayGoal 10).length = 4 ∧
    (generateReadingDates mondayGoal 10).Nodup := by
  have h := generateReadingDates_complete mondayGoal 10 0 1 (by decide) (by norm_num)
    rfl rfl (by simp [mondayGoal]) (by norm_num) (by norm_num)
  refine ⟨?_, h.2.2.1⟩
  rw [h.1]
  decide

/-! ## C3: ayah-reference formatting and parsing round-trip -/

lemma digitChar_isDigit (d : Nat) (h : d < 10) : (Char.ofNat (d + 48)).isDigit = true := by
  interval_cases d <;> decide

lemma digitChar_toNat (d : Nat) (h : d < 10) : (Char.ofNat (d + 48)).toNat = d + 48 := by
  interval_cases d <;> decide

lemma digitChar_not_ws (d : Nat) (h : d < 10) :
    (Char.ofNat (d + 48)).isWhitespace = false := by
  interval_cases d <;> decide

lemma digitChar_ne_dash (d : Nat) (h : d < 10) : Char.ofNat (d + 48) ≠ '-' := by
  interval_cases d <;> decide

lemma digitChar_ne_plus (d : Nat) (h : d < 10) : Char.ofNat (d + 48) ≠ '+' := by
  interval_cases d <;> decide

lemma digitChar_ne_colon (d : Nat) (h : d < 10) : Char.ofNat (d + 48) ≠ ':' := by
  interval_cases d <;> decide

/-- The decimal value of a digit-character list, the fold `parseInt`
uses on the digit prefix. -/
def digitsVal (l : List Char) : Nat :=
  l.foldl (fun acc c => 10 * acc + (c.toNat - '0'.toNat)) 0

lemma digitsVal_append_one (l : List Char) (c : Char) :
    digitsVal (l ++ [c]) = 10 * digitsVal l + (c.toNat - '0'.toNat) := by
  unfold digitsVal
  rw [List.foldl_append]
  rfl

/-- `natDigits` with sufficient fuel produces a non-empty digit string
whose value is the input. -/
lemma natDigits_spec : ∀ (fuel n : Nat), n < fuel →
    natDigits fuel n ≠ [] ∧
    (∀ c ∈ natDigits fuel n, ∃ d : Nat, d < 10 ∧ c = Char.ofNat (d + 48)) ∧
    digitsVal (natDigits fuel n) = n := by
  intro fuel
  induction fuel with
  | zero => intro n hn; omega
  | succ fuel ih =>
    intro n hn
    unfold natDigits
    by_cases h10 : n < 10
    · rw [if_pos h10]
      refine ⟨by simp, ?_, ?_⟩
      · intro c hc
        simp at hc
        exact ⟨n, h10, by rw [hc]⟩
      · show 10 * 0 + ((Char.ofNat (n + 48)).toNat - '0'.toNat) = n
        rw [digitChar_toNat n h10]
        show 10 * 0 + (n + 48 - 48) = n
        omega
    · rw [if_neg h10]
      have hrec : n / 10 < fuel := by
        have h1 : n / 10 < n := Nat.div_lt_self (by omega) (by omega)
        omega
      obtain ⟨hne, hdig, hval⟩ := ih (n / 10) hrec
      refine ⟨by simp, ?_, ?_⟩
      · intro c hc
        rcases List.mem_append.1 hc with hmem | hmem
        · exact hdig c hmem
        · simp at hmem
          exact ⟨n % 10, by omega, by rw [hmem]⟩
      · rw [digitsVal_append_one, hval]
        show 10 * (n / 10) + ((Char.ofNat (n % 10 + 48)).toNat - 48) = n
        rw [digitChar_toNat (n % 10) (by omega)]
        omega

/-- `digitPrefixVal` of an all-digit non-empty character list is its
decimal value. -/
lemma digitPrefixVal_of_digits (l : List Char) (hne : l ≠ [])
    (hd : ∀ c ∈ l, ∃ d : Nat, d < 10 ∧ c = Char.ofNat (d + 48)) :
    digitPrefixVal l = some (digitsVal l) := by
  unfold digitPrefixVal
  have htake : l.takeWhile (·.isDigit) = l := by
    refine List.takeWhile_eq_self_iff.mpr ?_
    intro c hc
    obtain ⟨d, hdlt, rfl⟩ := hd c hc
    exact digitChar_isDigit d hdlt
  rw [htake]
  rw [if_neg (by simpa using hne)]
  rfl

/-- JS `parseInt` recovers the value of an all-digit string. -/
lemma jsParseInt_digits (l : List Char) (hne : l ≠ [])
    (hd : ∀ c ∈ l, ∃ d : Nat, d < 10 ∧ c = Char.ofNat (d + 48)) :
    jsParseInt ⟨l⟩ = some ((digitsVal l : Nat) : Int) := by
  obtain ⟨c, rest, rfl⟩ : ∃ c rest, l = c :: rest := by
    cases l with
    | nil => exact absurd rfl hne
    | cons c rest => exact ⟨c, rest, rfl⟩
  obtain ⟨d, hdlt, hc⟩ := hd c (by simp)
  unfold jsParseInt
  have hdata : (String.mk (c :: rest)).data = c :: rest := rfl
  rw [hdata]
  have hdrop : (c :: rest).dropWhile (·.isWhitespace) = c :: rest := by
    rw [List.dropWhile_cons_of_neg]
    rw [hc]
    simp [digitChar_not_ws d hdlt]
  rw [hdrop]
  have hdash : c ≠ '-' := by rw [hc]; exact digitChar_ne_dash d hdlt
  have hplus : c ≠ '+' := by rw [hc]; exact digitChar_ne_plus d hdlt
  dsimp only
  split
  · next heq =>
      injection heq with h1 h2
      exact absurd h1 hdash
  · next heq =>
      injection heq with h1 h2
      exact absurd h1 hplus
  · rw [digitPrefixVal_of_digits _ (by simp) hd]
    rfl

/-- The character lists produced by `jsNumToString`. -/
lemma jsNumToString_data (n : Int) :
    (0 ≤ n → (jsNumToString n).data = natDigits (n.toNat + 1) n.toNat) ∧
    (n < 0 → (jsNumToString n).data = '-' :: natDigits ((-n).toNat + 1) (-n).toNat) := by
  constructor
  · intro h
    unfold jsNumToString
    rw [if_neg (by omega)]
  · intro h
    unfold jsNumToString
    rw [if_pos h, String.data_append]
    rfl

/-- JS `parseInt` inverts the JS number-to-string conversion. -/
lemma jsParseInt_jsNumToString (n : Int) : jsParseInt (jsNumToString n) = some n := by
  rcases le_or_lt 0 n with h | h
  · obtain ⟨hne, hdig, hval⟩ := natDigits_spec (n.toNat + 1) n.toNat (by omega)
    have hstr : jsNumToString n = ⟨natDigits (n.toNat + 1) n.toNat⟩ := by
      have := (jsNumToString_data n).1 h
      exact String.ext this
    rw [hstr, jsParseInt_digits _ hne hdig, hval]
    simp only [Option.some.injEq]
    omega
  · obtain ⟨hne, hdig, hval⟩ := natDigits_spec ((-n).toNat + 1) (-n).toNat (by omega)
    have hdata : (jsNumToString n).data = '-' :: natDigits ((-n).toNat + 1) (-n).toNat :=
      (jsNumToString_data n).2 h
    unfold jsParseInt
    rw [hdata]
    have hdrop : ('-' :: natDigits ((-n).toNat + 1) (-n).toNat).dropWhile
        (·.isWhitespace) = '-' :: natDigits ((-n).toNat + 1) (-n).toNat := by
      rw [List.dropWhile_cons_of_neg]
      decide
    rw [hdrop]
    dsimp only
    split
    · next heq =>
        injection heq with h1 h2
        rw [← h2, digitPrefixVal_of_digits _ hne hdig, hval]
        simp
        omega
    · next heq =>
        injection heq with h1 h2
        exact absurd h1 (by decide)
    · next hmiss1 hmiss2 =>
        exact absurd rfl (hmiss1 _)

/-- Splitting a colon-free character list yields one field. -/
lemma splitColonChars_no_colon : ∀ (x : List Char), (∀ c ∈ x, c ≠ ':') →
    splitColonChars x = [⟨x⟩] := by
  intro x
  induction x with
  | nil => intro _; rfl
  | cons c rest ih =>
    intro hx
    conv_lhs => unfold splitColonChars
    rw [if_neg (hx c (by simp)), ih (fun c hc => hx c (by simp [hc]))]

/-- Splitting around a single colon separates the two fields. -/
lemma splitColonChars_append : ∀ (x y : List Char), (∀ c ∈ x, c ≠ ':') →
    splitColonChars (x ++ ':' :: y) = (⟨x⟩ : String) :: splitColonChars y := by
  intro x
  induction x with
  | nil =>
    intro y _
    show splitColonChars (':' :: y) = _
    conv_lhs => unfold splitColonChars
    rw [if_pos rfl]
  | cons c rest ih =>
    intro y hx
    show splitColonChars (c :: (rest ++ ':' :: y)) = _
    conv_lhs => unfold splitColonChars
    rw [if_neg (hx c (by simp)), ih y (fun c hc => hx c (by simp [hc]))]

/-- Every character of `jsNumToString` is a digit or a leading minus, so
none is a colon. -/
lemma jsNumToString_no_colon (n : Int) : ∀ c ∈ (jsNumToString n).data, c ≠ ':' := by
  intro c hc
  rcases le_or_lt 0 n with h | h
  · rw [(jsNumToString_data n).1 h] at hc
    obtain ⟨_, hdig, _⟩ := natDigits_spec (n.toNat + 1) n.toNat (by omega)
    obtain ⟨d, hdlt, rfl⟩ := hdig c hc
    exact digitChar_ne_colon d hdlt
  · rw [(jsNumToString_data n).2 h] at hc
    rcases List.mem_cons.1 hc with rfl | hc
    · decide
    · obtain ⟨_, hdig, _⟩ := natDigits_spec ((-n).toNat + 1) (-n).toNat (by omega)
      obtain ⟨d, hdlt, rfl⟩ := hdig c hc
      exact digitChar_ne_colon d hdlt

/-- `parseAyahReference` inverts `formatAyah`: the printed reference
parses back to the same chapter/verse pair. -/
lemma parseAyahReference_formatAyah (s a : Int) :
    parseAyahReference (formatAyah s a) = some (s, a) := by
  have hsplit : jsSplitColon (formatAyah s a) = [jsNumToString s, jsNumToString a] := by
    unfold jsSplitColon formatAyah
    have hdata : (jsNumToString s ++ ":" ++ jsNumToString a).data =
        (jsNumToString s).data ++ ':' :: (jsNumToString a).data := by
      rw [String.data_append, String.data_append, List.append_assoc]
      rfl
    rw [hdata, splitColonChars_append _ _ (jsNumToString_no_colon s),
      splitColonChars_no_colon _ (jsNumToString_no_colon a)]
  unfold parseAyahReference
  rw [hsplit]
  dsimp only
  rw [jsParseInt_jsNumToString, jsParseInt_jsNumToString]

/-- The `incrementAyah` loop never moves the cursor backward, and its
chapter never exceeds `max start 115` — one past the last chapter is
reachable because the final roll-over is not capped. -/
lemma incrementAyahLoop_mono (idx : QuranIndex) :
    ∀ (fuel : Nat) (s a r : Int),
      (s < (incrementAyahLoop idx fuel s a r).1 ∨
        ((incrementAyahLoop idx fuel s a r).1 = s ∧
          a ≤ (incrementAyahLoop idx fuel s a r).2)) ∧
      (incrementAyahLoop idx fuel s a r).1 ≤ max s 115 := by
  intro fuel
  induction fuel with
  | zero => intro s a r; exact ⟨Or.inr ⟨rfl, le_rfl⟩, le_max_left _ _⟩
  | succ fuel ih =>
    intro s a r
    unfold incrementAyahLoop
    split
    · next hcond =>
        split
        · exact ⟨Or.inr ⟨rfl, le_rfl⟩, le_max_left _ _⟩
        · next surah _ =>
            dsimp only
            split
            · exact ⟨Or.inr ⟨rfl, by omega⟩, le_max_left _ _⟩
            · obtain ⟨hmono, hbound⟩ :=
                ih (s + 1) 1 (r - (surah.ayahCount - a + 1))
              constructor
              · left
                rcases hmono with h | ⟨h, _⟩ <;> omega
              · have hs : s ≤ 114 := hcond.2
                omega
    · exact ⟨Or.inr ⟨rfl, le_rfl⟩, le_max_left _ _⟩

/-- `incrementAyah` on a parseable reference formats a pair that parses
back, never moves backward and stays within chapter `max start 115`. -/
lemma incrementAyah_spec (idx : QuranIndex) (str : String) (count : Int)
    (p : Int × Int) (hp : parseAyahReference str = some p) :
    ∃ q : Int × Int, incrementAyah idx str count = formatAyah q.1 q.2 ∧
      parseAyahReference (incrementAyah idx str count) = some q ∧
      (p.1 < q.1 ∨ (p.1 = q.1 ∧ p.2 ≤ q.2)) ∧ q.1 ≤ max p.1 115 := by
  obtain ⟨ps, pa⟩ := p
  have hfmt : incrementAyah idx str count =
      formatAyah (incrementAyahLoop idx ((115 - ps).toNat + 1) ps pa count).1
        (incrementAyahLoop idx ((115 - ps).toNat + 1) ps pa count).2 := by
    unfold incrementAyah
    rw [hp]
  obtain ⟨hmono, hbound⟩ := incrementAyahLoop_mono idx ((115 - ps).toNat + 1) ps pa count
  refine ⟨_, hfmt, ?_, ?_, hbound⟩
  · rw [hfmt]
    exact parseAyahReference_formatAyah _ _
  · rcases hmono with h | ⟨h, h2⟩
    · left; exact h
    · right; exact ⟨h.symm, h2⟩

/-- In the ayahs branch, every produced assignment's `toAyah` is its
`fromAyah` advanced by `dailyAmount - 1`. -/
lemma planLoop_ayahs_toAyah (idx : QuranIndex) (goal : UserGoal) (e : Int) (ea : String)
    (hu : goal.unit = .ayahs) :
    ∀ (ds : List Int) (cp : Int) (ca : String),
      ∀ asg ∈ generatePlanLoop idx goal e ea ds cp ca [],
        asg.toAyah = incrementAyah idx asg.fromAyah (goal.dailyAmount - 1) := by
  intro ds
  induction ds with
  | nil =>
    intro cp ca asg hasg
    simp [generatePlanLoop] at hasg
  | cons date rest ih =>
    intro cp ca asg hasg
    unfold generatePlanLoop at hasg
    rw [if_neg (by rw [hu]; decide), if_pos hu] at hasg
    dsimp only at hasg
    have push : ∀ (cp' : Int) (ca' : String) (A : Assignment),
        A.toAyah = incrementAyah idx A.fromAyah (goal.dailyAmount - 1) →
        asg ∈ generatePlanLoop idx goal e ea rest cp' ca' ([] ++ [A]) →
        asg.toAyah = incrementAyah idx asg.fromAyah (goal.dailyAmount - 1) := by
      intro cp' ca' A hA hmem
      rw [planLoop_append] at hmem
      rcases List.mem_append.1 hmem with h | h
      · rw [List.nil_append, List.mem_singleton] at h
        rw [h]
        exact hA
      · exact ih cp' ca' asg h
    split at hasg
    · split at hasg
      · rw [List.nil_append, List.mem_singleton] at hasg
        rw [hasg]
      · exact push _ _ _ rfl hasg
    · exact push _ _ _ rfl hasg

/-- In the ayahs branch, the first assignment starts at the incoming ayah
cursor. -/
lemma planLoop_ayahs_head (idx : QuranIndex) (goal : UserGoal) (e : Int) (ea : String)
    (hu : goal.unit = .ayahs) (date : Int) (rest : List Int) (cp : Int) (ca : String) :
    (generatePlanLoop idx goal e ea (date :: rest) cp ca []).head?.map (·.fromAyah)
      = some ca := by
  conv_lhs => unfold generatePlanLoop
  rw [if_neg (by rw [hu]; decide), if_pos hu]
  dsimp only
  split
  · split
    · rfl
    · rw [planLoop_append]
      rfl
  · rw [planLoop_append]
    rfl

/-- Modelled from the spec: chapter 114 (an-Nās) is the last chapter of
the Quran, has 6 verses, and lies entirely on page 604 — corroborated by
the source's own constant `'114:6'` for the whole-Quran ending ayah.  The
index resolves only that chapter and the page of its first verse. -/
def surah114Index : QuranIndex where
  getJuzById := fun _ => none
  getSurahById := fun t => if t = 114 then some ⟨6, 604, 604⟩ else none
  getAyahRangeForPage := fun _ => none
  getPageForAyah := fun s a => if s = 114 ∧ a = 1 then some 604 else none

/-- A goal reading chapter 114 in verse units, 10 verses a day, starting
day 0, every weekday, no deadline. -/
def surah114AyahsGoal : UserGoal where
  target := .specificSurah
  targetValue := some 114
  unit := .ayahs
  dailyAmount := 10
  deadline := none
  startDate := some 0
  daysOfWeek := [0, 1, 2, 3, 4, 5, 6]

/-- C3 counterexample: for a goal covering chapter 114 (6 verses) at 10
verses a day, the single generated assignment ends at `"115:1"` — past
the scope's ending ayah `"114:6"` and past chapter 114 itself — because
`incrementAyah` rolls over into a nonexistent chapter instead of clamping
at the scope end, contradicting the claim that every assignment's range
stays within the goal's scope. -/
theorem generatePlan_overshoots_scope_end :
    (validateGoal surah114AyahsGoal).1 = true ∧
    (generatePlan surah114Index surah114AyahsGoal).map (·.toAyah) = ["115:1"] ∧
    getEndingAyah surah114Index surah114AyahsGoal = "114:6" ∧
    parseAyahReference "115:1" = some (115, 1) ∧
    parseAyahReference "114:6" = some (114, 6) := by
  refine ⟨?_, ?_, ?_, ?_, ?_⟩ <;> decide

/-- C3 (amended): in verse mode every assignment's `toAyah` is its
`fromAyah` advanced by `dailyAmount - 1` verses, rolling over chapter
boundaries; the advance never moves backward, yet the final roll-over is
not capped at the scope's ending verse: the chapter can reach
`max fromChapter 115` — in particular `115:1`, one past chapter 114 —
rather than stopping at the scope end.  The plan's first assignment does
start exactly at the scope's starting reference. -/
theorem generatePlan_ayahs_monotone (idx : QuranIndex) (goal : UserGoal)
    (hu : goal.unit = .ayahs) :
    (∀ asg ∈ generatePlan idx goal,
       asg.toAyah = incrementAyah idx asg.fromAyah (goal.dailyAmount - 1) ∧
       ∀ p : Int × Int, parseAyahReference asg.fromAyah = some p →
         ∃ q : Int × Int, parseAyahReference asg.toAyah = some q ∧
           (p.1 < q.1 ∨ (p.1 = q.1 ∧ p.2 ≤ q.2)) ∧ q.1 ≤ max p.1 115) ∧
    (generatePlan idx goal ≠ [] →
      (generatePlan idx goal).head?.map (·.fromAyah)
        = some (getStartingAyah idx goal)) := by
  constructor
  · intro asg hasg
    have hmem : asg ∈ generatePlanLoop idx goal (getEndingPage idx goal)
        (getEndingAyah idx goal) (generateReadingDates goal (calculateTotalUnits idx goal))
        (getStartingPage idx goal) (getStartingAyah idx goal) [] := by
      unfold generatePlan at hasg
      dsimp only at hasg
      split at hasg
      · simp at hasg
      · split at hasg
        · simp at hasg
        · exact hasg
    have hto := planLoop_ayahs_toAyah idx goal _ _ hu _ _ _ asg hmem
    refine ⟨hto, ?_⟩
    intro p hp
    obtain ⟨q, hfmt, hparse, hmono, hbound⟩ :=
      incrementAyah_spec idx asg.fromAyah (goal.dailyAmount - 1) p hp
    exact ⟨q, by rw [hto]; exact hparse, hmono, hbound⟩
  · intro hne
    unfold generatePlan at hne ⊢
    dsimp only at hne ⊢
    split at hne
    · exact absurd rfl hne
    · next htot =>
        split at hne
        · exact absurd rfl hne
        · next hlen =>
            cases hds : generateReadingDates goal (calculateTotalUnits idx goal) with
            | nil => rw [hds] at hlen; simp at hlen
            | cons d0 rest =>
              rw [if_neg htot, if_neg (by simp)]
              exact planLoop_ayahs_head idx goal _ _ hu d0 rest _ _

/-- C3 witness: the amended theorem applied to the concrete chapter-114
verse-mode goal. -/
theorem generatePlan_ayahs_monotone_witness :
    surah114AyahsGoal.unit = GoalUnit.ayahs ∧
    ((∀ asg ∈ generatePlan surah114Index surah114AyahsGoal,
        asg.toAyah =
          incrementAyah surah114Index asg.fromAyah (surah114AyahsGoal.dailyAmount - 1) ∧
        ∀ p : Int × Int, parseAyahReference asg.fromAyah = some p →
          ∃ q : Int × Int, parseAyahReference asg.toAyah = some q ∧
            (p.1 < q.1 ∨ (p.1 = q.1 ∧ p.2 ≤ q.2)) ∧ q.1 ≤ max p.1 115) ∧
      (generatePlan surah114Index surah114AyahsGoal ≠ [] →
        (generatePlan surah114Index surah114AyahsGoal).head?.map (·.fromAyah)
          = some (getStartingAyah surah114Index surah114AyahsGoal))) :=
  ⟨rfl, generatePlan_ayahs_monotone surah114Index surah114AyahsGoal rfl⟩

/-- C5 witness: the concrete deadline goal (start day 0, deadline day 30,
one page a day, all weekdays) has at most 31 assignments, all dated at
most the deadline. -/
theorem generatePlan_respects_deadline_witness :
    (generatePlan emptyIndex
      { target := .wholeQuran, targetValue := none, unit := .pages, dailyAmount := 1,
        deadline := some (some 30), startDate := some 0,
        daysOfWeek := [0, 1, 2, 3, 4, 5, 6] }).length ≤ 31 ∧
    ∀ a ∈ generatePlan emptyIndex
      { target := .wholeQuran, targetValue := none, unit := .pages, dailyAmount := 1,
        deadline := some (some 30), startDate := some 0,
        daysOfWeek := [0, 1, 2, 3, 4, 5, 6] },
      a.date.time ≤ 30 * msPerDay := by
  have h := generatePlan_respects_deadline.2 emptyIndex 0
  constructor
  · have h1 := h.1
    simpa using h1
  · intro a ha
    have h2 := h.2 a (by simpa using ha)
    simpa using h2

end QT
